import Mathlib

set_option maxRecDepth 100000

/-!
# Verification of `bevy_mod_environment_map_tools`

A shallow embedding of `src/lib.rs` (the KTX2 cubemap converter) in Lean 4:
the Data Format Descriptor builder `create_rgb9e5_dfd`, the region extractor
`extract_mip_level`, and the container writer `write_ktx2`, together with
theorems checking the natural-language specification against them.

Bytes are modelled as `Nat` values (each `< 256` where produced by the code),
32-bit words as `Nat` with explicit truncation to byte positions when
serialized little-endian.  Rust panics are modelled as `Option.none`.
The external collaborators (`half`/`zstd`/`ktx2` crates and the repository
modules `ktx2_writer` / `rgb9e5`, which are not under `src/`) enter as
abstract function parameters or spec-modelled definitions, each marked.
-/

namespace EnvMap

/-- Serialize a 32-bit word as four little-endian bytes
(`u32::to_le_bytes` in the source). -/
def u32le (w : Nat) : List Nat :=
  [w % 256, w / 256 % 256, w / 65536 % 256, w / 16777216 % 256]

/-- Read four bytes as a little-endian 32-bit word
(`u32::from_le_bytes`; used to state the DFD length invariant). -/
def readLE32 (bs : List Nat) : Nat :=
  match bs with
  | [a, b, c, d] => a + 256 * b + 65536 * c + 16777216 * d
  | _ => 0

/-- One 16-byte sample descriptor, from `push_sample` in
`create_rgb9e5_dfd` (src/lib.rs:124-139): the first word packs
`bit_offset | (bit_length-1) << 16 | channel_type << 24 | qualifiers << 28`,
then a zero `samplePosition` word and the lower/upper range words. -/
def push_sample (bit_offset bit_length_bits channel_type qualifiers lower upper : Nat) :
    List Nat :=
  u32le (bit_offset ||| ((bit_length_bits - 1) <<< 16) |||
         (channel_type <<< 24) ||| (qualifiers <<< 28)) ++
  u32le 0 ++ u32le lower ++ u32le upper

/-- `NUM_SAMPLES` in src/lib.rs:98. -/
def NUM_SAMPLES : Nat := 6

/-- `BASIC_BLOCK_BYTE_LENGTH` in src/lib.rs:99. -/
def BASIC_BLOCK_BYTE_LENGTH : Nat := 24 + 16 * NUM_SAMPLES

/-- `VERSION_NUMBER` in src/lib.rs:100. -/
def VERSION_NUMBER : Nat := 2

/-- Qualifier flag `QUAL_EXPONENT = 1 << 1` (src/lib.rs:143). -/
def QUAL_EXPONENT : Nat := 1 <<< 1

/-- The DFD byte buffer before the length patch: a zero placeholder word,
the two block-header words, the three "basic" words, and the six samples,
exactly as appended in `create_rgb9e5_dfd` (src/lib.rs:90-163). -/
def dfd_prepatch : List Nat :=
  u32le 0 ++                                            -- length placeholder
  u32le 0 ++                                            -- vendor/descriptorType
  u32le ((BASIC_BLOCK_BYTE_LENGTH <<< 16) ||| VERSION_NUMBER) ++  -- word1
  u32le (1 ||| (1 <<< 8) ||| (1 <<< 16) ||| (0 <<< 24)) ++       -- word2
  u32le 0 ++                                            -- texel block dimensions
  u32le 4 ++                                            -- bytesPlane0-3
  u32le 0 ++                                            -- bytesPlane4-7
  push_sample 0 9 0 0 0 8448 ++
  push_sample 27 5 0 QUAL_EXPONENT 15 31 ++
  push_sample 9 9 1 0 0 8448 ++
  push_sample 27 5 1 QUAL_EXPONENT 15 31 ++
  push_sample 18 9 2 0 0 8448 ++
  push_sample 27 5 2 QUAL_EXPONENT 15 31

/-- `create_rgb9e5_dfd` (src/lib.rs:84-170): after all words are appended,
the first four bytes are overwritten with the total length, little-endian. -/
def create_rgb9e5_dfd : List Nat :=
  u32le dfd_prepatch.length ++ dfd_prepatch.drop 4


/-- The fields of the source image's texture descriptor that the converter
reads: base size, mip level count, and the two format queries used —
`format.block_copy_size(None)` (bytes per texel; 8 for Rgba16Float) and
`Image::is_compressed()`. -/
structure TextureDescriptor where
  width : Nat
  height : Nat
  mip_level_count : Nat
  block_copy_size : Nat
  is_compressed : Bool
  deriving DecidableEq

/-- The source `Image`: its texture descriptor and the single contiguous
byte buffer (face-major, mip-minor). -/
structure Image where
  data : List Nat
  texture_descriptor : TextureDescriptor
  deriving DecidableEq

/-- The inner loop of `extract_mip_level` (src/lib.rs:190-194 and 200-204):
`n` iterations of `byte_offset += width * block_size * height; width /= 2;
height /= 2`, carried as a state triple (offset, width, height). -/
def mipLoop (block_size : Nat) : Nat → Nat × Nat × Nat → Nat × Nat × Nat
  | 0, s => s
  | n + 1, (off, w, h) => mipLoop block_size n (off + w * block_size * h, w / 2, h / 2)

/-- The outer face loop of `extract_mip_level` (src/lib.rs:187-195): each of
`face` iterations restarts width/height from the base size and adds a full
`mip_level_count`-level chain to the byte offset. -/
def faceLoop (block_size w h mip_count : Nat) : Nat → Nat
  | 0 => 0
  | f + 1 => faceLoop block_size w h mip_count f + (mipLoop block_size mip_count (0, w, h)).1

/-- Byte size of mip level `j`: base dimensions floor-halved `j` times, times
bytes per texel.  Matches the spec's description of the region size. -/
def levelSize (w h block_size j : Nat) : Nat :=
  (w / 2 ^ j) * block_size * (h / 2 ^ j)

/-- The region arithmetic of `extract_mip_level` (src/lib.rs:173-204):
`none` models the panic when `mip_level_count < mip_level`; otherwise the
byte offset, byte length, and the mip's width and height. -/
def extract_region (d : TextureDescriptor) (mip_level face : Nat) :
    Option ((Nat × Nat) × Nat × Nat) :=
  if d.mip_level_count < mip_level then none
  else
    let r := mipLoop d.block_copy_size mip_level
      (faceLoop d.block_copy_size d.width d.height d.mip_level_count face, d.width, d.height)
    some ((r.1, r.2.1 * d.block_copy_size * r.2.2), r.2.1, r.2.2)

/-- The result of `extract_mip_level`: the sliced data and the mip's
dimensions (the returned `Image`'s fields that the caller uses). -/
structure ExtractedMip where
  data : List Nat
  width : Nat
  height : Nat
  deriving DecidableEq

/-- `extract_mip_level` (src/lib.rs:173-222): region arithmetic, then the
slice `image.data[byte_offset..byte_offset + len]`; `none` models both the
out-of-range panic and a slice-bounds panic. -/
def extract_mip_level (image : Image) (mip_level face : Nat) : Option ExtractedMip :=
  match extract_region image.texture_descriptor mip_level face with
  | none => none
  | some ((off, len), w, h) =>
    if off + len ≤ image.data.length then
      some ⟨(image.data.drop off).take len, w, h⟩
    else none

/-- `to_vec_f16_from_byte_slice` (src/lib.rs:14-16): reinterpret a byte
slice as `len / 2` half-floats; each f16 is modelled by its 16-bit pattern
(low byte + 256 × high byte), a trailing odd byte is dropped. -/
def to_vec_f16_from_byte_slice : List Nat → List Nat
  | a :: b :: rest => (a + 256 * b) :: to_vec_f16_from_byte_slice rest
  | _ => []

/-- `u32_to_bytes` (src/lib.rs:18-20): reinterpret a u32 slice as
`len * 4` little-endian bytes. -/
def u32_to_bytes (ws : List Nat) : List Nat :=
  ws.flatMap u32le

/-- Rust's `slice::chunks(4)`: full 4-element chunks, then a shorter
remainder chunk if the length is not a multiple of 4. -/
def chunks4 {α : Type} : List α → List (List α)
  | a :: b :: c :: d :: rest => [a, b, c, d] :: chunks4 rest
  | [] => []
  | l => [l]

/-- Sequencing of a fallible step over a list, used to model the source's
for-loops whose bodies can panic: `none` as soon as one step panics,
otherwise the list of results in order. -/
def mapOpt {α β : Type} (f : α → Option β) : List α → Option (List β)
  | [] => some []
  | a :: as => do
    let b ← f a
    let bs ← mapOpt f as
    pure (b :: bs)

/-- One iteration of the encoding loop body (src/lib.rs:34-40):
`float3_to_rgb9e5(&[v[0].to_f32(), v[1].to_f32(), v[2].to_f32()])`.
`enc` abstracts `f16::to_f32` composed with `float3_to_rgb9e5` (module
`rgb9e5`, not under src/, and floating point); `none` models the index
panic when the chunk has fewer than 3 elements. -/
def encodeChunk (enc : Nat → Nat → Nat → Nat) : List Nat → Option Nat
  | a :: b :: c :: _ => some (enc a b c)
  | _ => none

/-- The per-face part of the level loop (src/lib.rs:30-41): extract the
(mip, face) region, reinterpret as half-floats, and encode each 4-chunk. -/
def faceWords (enc : Nat → Nat → Nat → Nat) (image : Image) (mip_level face : Nat) :
    Option (List Nat) := do
  let em ← extract_mip_level image mip_level face
  mapOpt (encodeChunk enc) (chunks4 (to_vec_f16_from_byte_slice em.data))

/-- The whole per-level accumulation (src/lib.rs:29-41): faces 0..5 in
ascending order, words concatenated. -/
def levelWords (enc : Nat → Nat → Nat → Nat) (image : Image) (mip_level : Nat) :
    Option (List Nat) := do
  let fws ← mapOpt (faceWords enc image mip_level) (List.range 6)
  pure fws.flatten

/-- `WriterLevel` (module `ktx2_writer`): uncompressed byte length and the
compressed payload, as filled in at src/lib.rs:44-47. -/
structure WriterLevel where
  uncompressed_length : Nat
  bytes : List Nat
  deriving DecidableEq

/-- One level's `WriterLevel` (src/lib.rs:43-47): serialize the words to
bytes, record their length, compress.  `compress` abstracts
`zstd::bulk::compress(·, 0)` (external crate, deterministic function). -/
def buildLevel (enc : Nat → Nat → Nat → Nat) (compress : List Nat → List Nat)
    (image : Image) (mip_level : Nat) : Option WriterLevel :=
  (levelWords enc image mip_level).map fun ws =>
    let rgb9e5_bytes := u32_to_bytes ws
    { uncompressed_length := rgb9e5_bytes.length, bytes := compress rgb9e5_bytes }

/-- Vulkan format code `VK_FORMAT_E5B9G9R9_UFLOAT_PACK32` — the `ktx2`
crate's `Format::E5B9G9R9_UFLOAT_PACK32` (src/lib.rs:56). -/
def E5B9G9R9_UFLOAT_PACK32 : Nat := 123

/-- KTX2 supercompression scheme identifier for
`SupercompressionScheme::Zstandard` (src/lib.rs:63). -/
def Zstandard : Nat := 2

/-- `Header` (module `ktx2_writer`), with the fields populated at
src/lib.rs:55-64. -/
structure Header where
  format : Option Nat
  type_size : Nat
  pixel_width : Nat
  pixel_height : Nat
  pixel_depth : Nat
  layer_count : Nat
  face_count : Nat
  supercompression_scheme : Option Nat
  deriving DecidableEq

/-- `KTX2Writer` (module `ktx2_writer`), as assembled at src/lib.rs:54-67. -/
structure KTX2Writer where
  header : Header
  dfd_bytes : List Nat
  levels_descending : List WriterLevel
  deriving DecidableEq

/-- `write_ktx2` (src/lib.rs:22-72): panic (`none`) on a compressed source;
otherwise one `WriterLevel` per mip level 0..M (largest first), the DFD, and
the header.  File output is the serialization of the returned value. -/
def write_ktx2 (enc : Nat → Nat → Nat → Nat) (compress : List Nat → List Nat)
    (image : Image) : Option KTX2Writer :=
  if image.texture_descriptor.is_compressed then none
  else do
    let mips ← mapOpt (buildLevel enc compress image)
      (List.range image.texture_descriptor.mip_level_count)
    pure
      { header :=
        { format := some E5B9G9R9_UFLOAT_PACK32
          type_size := 4
          pixel_width := image.texture_descriptor.width
          pixel_height := image.texture_descriptor.height
          pixel_depth := 0
          layer_count := 0
          face_count := 6
          supercompression_scheme := some Zstandard }
        dfd_bytes := create_rgb9e5_dfd
        levels_descending := mips }

/-- Serialize a 64-bit word as eight little-endian bytes. -/
def u64le (w : Nat) : List Nat :=
  u32le (w % 2 ^ 32) ++ u32le (w / 2 ^ 32 % 2 ^ 32)

/-- Modelled from the spec: the serialization performed by
`KTX2Writer::write` lives in the repository module `ktx2_writer`, which is
not under src/; this follows spec §6 — 12-byte magic, the header fields
(format id, type size, width, height, depth, layer count, face count, mip
level count, supercompression scheme), the index block (DFD offset/length,
empty key-value data, empty supercompression global data, and one
(byteOffset, byteLength, uncompressedByteLength) entry per level, largest
mip first), then the DFD bytes, then the concatenated compressed level
payloads in index order. -/
def levelIndex (off : Nat) : List WriterLevel → List Nat
  | [] => []
  | l :: ls =>
    u64le off ++ u64le l.bytes.length ++ u64le l.uncompressed_length ++
    levelIndex (off + l.bytes.length) ls

/-- Modelled from the spec (continued): the full byte serialization. -/
def serializeKTX2 (k : KTX2Writer) : List Nat :=
  let magic : List Nat := [0xAB, 0x4B, 0x54, 0x58, 0x20, 0x32, 0x30, 0xBB, 0x0D, 0x0A, 0x1A, 0x0A]
  let levelCount := k.levels_descending.length
  let indexStart := 12 + 9 * 4 + 4 * 4 + 2 * 8
  let dfdOff := indexStart + levelCount * 24
  let payloadStart := dfdOff + k.dfd_bytes.length
  magic ++
  u32le (k.header.format.getD 0) ++ u32le k.header.type_size ++
  u32le k.header.pixel_width ++ u32le k.header.pixel_height ++
  u32le k.header.pixel_depth ++ u32le k.header.layer_count ++
  u32le k.header.face_count ++ u32le levelCount ++
  u32le (k.header.supercompression_scheme.getD 0) ++
  u32le dfdOff ++ u32le k.dfd_bytes.length ++ u32le 0 ++ u32le 0 ++
  u64le 0 ++ u64le 0 ++
  levelIndex payloadStart k.levels_descending ++
  k.dfd_bytes ++
  (k.levels_descending.map WriterLevel.bytes).flatten

/-- A 16-byte sample descriptor written from the spec's words, for comparison
with the source's `push_sample`: the first word packs
"bit_offset | (bit_length−1)<<16 | type<<24 | qualifier<<28" (here rendered
with `+` and powers of two, so the theorem also checks the fields do not
overlap), then a reserved/zero word, then the low and high range words. -/
def specSample (bit_offset bit_length ty qualifier lower upper : Nat) : List Nat :=
  u32le (bit_offset + (bit_length - 1) * 2 ^ 16 + ty * 2 ^ 24 + qualifier * 2 ^ 28) ++
  [0, 0, 0, 0] ++ u32le lower ++ u32le upper

end EnvMap

namespace EnvMap

theorem to_vec_f16_length :
    ∀ l : List Nat, (to_vec_f16_from_byte_slice l).length = l.length / 2
  | [] => by simp [to_vec_f16_from_byte_slice]
  | [_] => by simp [to_vec_f16_from_byte_slice]
  | _ :: _ :: rest => by
    simp only [to_vec_f16_from_byte_slice, List.length_cons,
      to_vec_f16_length rest]
    omega

theorem chunks4_all_four {α : Type} :
    ∀ l : List α, l.length % 4 = 0 → ∀ c ∈ chunks4 l, c.length = 4
  | [], _, c, hc => by simp [chunks4] at hc
  | [_], h, _, _ => by simp at h
  | [_, _], h, _, _ => by simp at h
  | [_, _, _], h, _, _ => by simp at h
  | a :: b :: d :: e :: rest, h, c, hc => by
    simp only [chunks4, List.mem_cons] at hc
    rcases hc with rfl | hc
    · rfl
    · exact chunks4_all_four rest (by simp at h; omega) c hc

theorem chunks4_count {α : Type} :
    ∀ l : List α, l.length % 4 = 0 → (chunks4 l).length = l.length / 4
  | [], _ => by simp [chunks4]
  | [_], h => by simp at h
  | [_, _], h => by simp at h
  | [_, _, _], h => by simp at h
  | _ :: _ :: _ :: _ :: rest, h => by
    simp only [chunks4, List.length_cons]
    rw [chunks4_count rest (by simp at h; omega)]
    simp at h ⊢
    omega

theorem encodeChunk_some (enc : Nat → Nat → Nat → Nat) (c : List Nat)
    (h : 3 ≤ c.length) : ∃ w, encodeChunk enc c = some w := by
  rcases c with _ | ⟨a, c⟩
  · simp at h
  rcases c with _ | ⟨b, c⟩
  · simp at h
  rcases c with _ | ⟨d, c⟩
  · simp at h
  exact ⟨enc a b d, rfl⟩

theorem mapOpt_some_of_forall {α β : Type} (f : α → Option β) :
    ∀ l : List α, (∀ a ∈ l, ∃ b, f a = some b) →
      ∃ bs, mapOpt f l = some bs ∧ bs.length = l.length := by
  intro l
  induction l with
  | nil => intro _; exact ⟨[], rfl, rfl⟩
  | cons a as ih =>
    intro h
    obtain ⟨b, hb⟩ := h a (List.mem_cons_self a as)
    obtain ⟨bs, hbs, hlen⟩ := ih fun x hx => h x (List.mem_cons_of_mem a hx)
    exact ⟨b :: bs, by simp [mapOpt, hb, hbs], by simp [hlen]⟩

theorem mapOpt_forall2 {α β : Type} (f : α → Option β) :
    ∀ (l : List α) (bs : List β), mapOpt f l = some bs →
      List.Forall₂ (fun a b => f a = some b) l bs := by
  intro l
  induction l with
  | nil =>
    intro bs h
    simp only [mapOpt] at h
    cases h
    constructor
  | cons a as ih =>
    intro bs h
    simp only [mapOpt] at h
    cases hfa : f a with
    | none => rw [hfa] at h; simp at h
    | some b =>
      rw [hfa] at h
      cases hrest : mapOpt f as with
      | none => rw [hrest] at h; simp at h
      | some bs' =>
        rw [hrest] at h
        simp only [Option.bind_eq_bind, Option.some_bind, Option.pure_def,
          Option.some.injEq] at h
        cases h
        exact List.Forall₂.cons hfa (ih bs' hrest)

theorem mipLoop_eq (bs : Nat) :
    ∀ (n off w h : Nat),
      mipLoop bs n (off, w, h) =
        (off + ∑ j ∈ Finset.range n, levelSize w h bs j, w / 2 ^ n, h / 2 ^ n) := by
  intro n
  induction n with
  | zero => intro off w h; simp [mipLoop, levelSize]
  | succ n ih =>
    intro off w h
    have hw : ∀ x j : Nat, x / 2 / 2 ^ j = x / 2 ^ (j + 1) := by
      intro x j
      rw [Nat.div_div_eq_div_mul, pow_succ, mul_comm]
    have hls : ∀ j, levelSize (w / 2) (h / 2) bs j = levelSize w h bs (j + 1) := by
      intro j; simp [levelSize, hw]
    rw [mipLoop, ih]
    simp only [hls, hw]
    have : w * bs * h + ∑ j ∈ Finset.range n, levelSize w h bs (j + 1) =
        ∑ j ∈ Finset.range (n + 1), levelSize w h bs j := by
      rw [Finset.sum_range_succ']
      have h0 : levelSize w h bs 0 = w * bs * h := by simp [levelSize]
      omega
    rw [Nat.add_assoc, this]

theorem faceLoop_eq (bs w h M : Nat) :
    ∀ f, faceLoop bs w h M f =
      ∑ _i ∈ Finset.range f, ∑ j ∈ Finset.range M, levelSize w h bs j := by
  intro f
  induction f with
  | zero => simp [faceLoop]
  | succ f ih => rw [faceLoop, ih, Finset.sum_range_succ, mipLoop_eq]; simp

theorem extract_region_formula (d : TextureDescriptor) (m f : Nat)
    (hm : m ≤ d.mip_level_count) :
    extract_region d m f =
      some ((∑ _i ∈ Finset.range f,
               ∑ j ∈ Finset.range d.mip_level_count,
                 levelSize d.width d.height d.block_copy_size j
             + ∑ j ∈ Finset.range m, levelSize d.width d.height d.block_copy_size j,
             (d.width / 2 ^ m) * (d.height / 2 ^ m) * d.block_copy_size),
            d.width / 2 ^ m, d.height / 2 ^ m) := by
  rw [extract_region, if_neg (by omega), mipLoop_eq, faceLoop_eq]
  simp [mul_right_comm]

/-- C4: for mip level `m < M` and face `f < 6`, the region extractor returns
offset = (sum over faces before `f` of that face's full `M`-level mip-chain
byte length, each chain floor-halving the base dimensions per level) + (sum
over levels before `m` of the level sizes), and length = width(m) × height(m)
× bytes-per-texel with the dimensions floor-halved `m` times; in particular
for base 4×4, M = 3, 8 bytes per texel: face 0 gives offsets 0, 128, 160
with lengths 128, 32, 8, and face 1's chain starts at offset 168. -/
theorem extract_region_spec (d : TextureDescriptor) (m f : Nat)
    (hm : m < d.mip_level_count) (_hf : f < 6) :
    extract_region d m f =
      some ((∑ _i ∈ Finset.range f,
               ∑ j ∈ Finset.range d.mip_level_count,
                 levelSize d.width d.height d.block_copy_size j
             + ∑ j ∈ Finset.range m, levelSize d.width d.height d.block_copy_size j,
             (d.width / 2 ^ m) * (d.height / 2 ^ m) * d.block_copy_size),
            d.width / 2 ^ m, d.height / 2 ^ m) ∧
    extract_region ⟨4, 4, 3, 8, false⟩ 0 0 = some ((0, 128), 4, 4) ∧
    extract_region ⟨4, 4, 3, 8, false⟩ 1 0 = some ((128, 32), 2, 2) ∧
    extract_region ⟨4, 4, 3, 8, false⟩ 2 0 = some ((160, 8), 1, 1) ∧
    extract_region ⟨4, 4, 3, 8, false⟩ 0 1 = some ((168, 128), 4, 4) :=
  ⟨extract_region_formula d m f (Nat.le_of_lt hm),
   by decide, by decide, by decide, by decide⟩

/-- Witness for `extract_region_spec` at base 4×4, M = 3, 8 bytes per texel,
mip level 1, face 2. -/
theorem extract_region_spec_witness :
    extract_region ⟨4, 4, 3, 8, false⟩ 1 2 =
      some ((∑ _i ∈ Finset.range 2, ∑ j ∈ Finset.range 3, levelSize 4 4 8 j
             + ∑ j ∈ Finset.range 1, levelSize 4 4 8 j,
             (4 / 2 ^ 1) * (4 / 2 ^ 1) * 8), 4 / 2 ^ 1, 4 / 2 ^ 1) :=
  (extract_region_spec ⟨4, 4, 3, 8, false⟩ 1 2 (by decide) (by decide)).1

theorem chain_partial_le (w h bs : Nat) {m M : Nat} (hm : m < M) :
    (∑ j ∈ Finset.range m, levelSize w h bs j) + levelSize w h bs m ≤
      ∑ j ∈ Finset.range M, levelSize w h bs j := by
  rw [← Finset.sum_range_succ]
  exact Finset.sum_le_sum_of_subset (Finset.range_subset.mpr hm)

theorem extract_mip_level_some (image : Image) (m f : Nat)
    (hm : m < image.texture_descriptor.mip_level_count) (hf : f < 6)
    (hdata : image.data.length =
      6 * ∑ j ∈ Finset.range image.texture_descriptor.mip_level_count,
        levelSize image.texture_descriptor.width image.texture_descriptor.height
          image.texture_descriptor.block_copy_size j) :
    ∃ em, extract_mip_level image m f = some em ∧
      em.data.length =
        levelSize image.texture_descriptor.width image.texture_descriptor.height
          image.texture_descriptor.block_copy_size m ∧
      em.width = image.texture_descriptor.width / 2 ^ m ∧
      em.height = image.texture_descriptor.height / 2 ^ m := by
  have hr := extract_region_formula image.texture_descriptor m f (Nat.le_of_lt hm)
  set w := image.texture_descriptor.width
  set h := image.texture_descriptor.height
  set bs := image.texture_descriptor.block_copy_size
  set M := image.texture_descriptor.mip_level_count
  set C := ∑ j ∈ Finset.range M, levelSize w h bs j with hC
  have hoff : (∑ _i ∈ Finset.range f, C) = f * C := by
    simp [Finset.sum_const, Finset.card_range, smul_eq_mul]
  have hlen_eq : (w / 2 ^ m) * (h / 2 ^ m) * bs = levelSize w h bs m := by
    rw [levelSize, mul_right_comm]
  have hbound :
      (∑ _i ∈ Finset.range f, C) + (∑ j ∈ Finset.range m, levelSize w h bs j)
        + (w / 2 ^ m) * (h / 2 ^ m) * bs ≤ image.data.length := by
    rw [hoff, hlen_eq, hdata]
    have h1 := chain_partial_le w h bs hm
    have h2 : f * C + C ≤ 6 * C := by
      have h3 : (f + 1) * C ≤ 6 * C := Nat.mul_le_mul_right C hf
      have h4 : f * C + C = (f + 1) * C := by ring
      omega
    omega
  rw [extract_mip_level, hr]
  simp only
  rw [if_pos (by omega)]
  refine ⟨_, rfl, ?_, rfl, rfl⟩
  simp only [List.length_take, List.length_drop]
  rw [← hlen_eq]
  omega

theorem u32_to_bytes_length :
    ∀ ws : List Nat, (u32_to_bytes ws).length = 4 * ws.length := by
  intro ws
  induction ws with
  | nil => rfl
  | cons a as ih =>
    simp only [u32_to_bytes, List.flatMap_cons, List.length_append,
      List.length_cons] at ih ⊢
    simp [u32le] at ih ⊢
    omega

theorem flatten_length_const {α : Type} (y : Nat) :
    ∀ l : List (List α), (∀ x ∈ l, x.length = y) →
      l.flatten.length = l.length * y := by
  intro l
  induction l with
  | nil => simp
  | cons x xs ih =>
    intro hx
    simp only [List.flatten_cons, List.length_append, List.length_cons]
    rw [hx x (List.mem_cons_self x xs), ih fun z hz => hx z (List.mem_cons_of_mem x hz)]
    ring

theorem forall2_mem_right {α β : Type} {R : α → β → Prop} :
    ∀ {l : List α} {l' : List β}, List.Forall₂ R l l' →
      ∀ b ∈ l', ∃ a ∈ l, R a b := by
  intro l l' h
  induction h with
  | nil => intro b hb; simp at hb
  | @cons a b as bs h1 _ ih =>
    intro x hx
    rcases List.mem_cons.mp hx with rfl | hx
    · exact ⟨a, List.mem_cons_self a as, h1⟩
    · obtain ⟨a', ha', hr⟩ := ih x hx
      exact ⟨a', List.mem_cons_of_mem a ha', hr⟩

theorem faceWords_some (enc : Nat → Nat → Nat → Nat) (image : Image) (m f : Nat)
    (hm : m < image.texture_descriptor.mip_level_count) (hf : f < 6)
    (h8 : image.texture_descriptor.block_copy_size = 8)
    (hdata : image.data.length =
      6 * ∑ j ∈ Finset.range image.texture_descriptor.mip_level_count,
        levelSize image.texture_descriptor.width image.texture_descriptor.height
          image.texture_descriptor.block_copy_size j) :
    ∃ ws, faceWords enc image m f = some ws ∧
      ws.length = (image.texture_descriptor.width / 2 ^ m)
        * (image.texture_descriptor.height / 2 ^ m) := by
  obtain ⟨em, hem, hlen, _, _⟩ := extract_mip_level_some image m f hm hf hdata
  set y := (image.texture_descriptor.width / 2 ^ m)
    * (image.texture_descriptor.height / 2 ^ m) with hy
  have hdl : em.data.length = y * 8 := by
    rw [hlen, levelSize, h8, hy]; ring
  have hf16 : (to_vec_f16_from_byte_slice em.data).length = y * 4 := by
    rw [to_vec_f16_length, hdl]; omega
  have hchunks : ∀ c ∈ chunks4 (to_vec_f16_from_byte_slice em.data), c.length = 4 :=
    chunks4_all_four _ (by omega)
  obtain ⟨ws, hws, hwl⟩ := mapOpt_some_of_forall (encodeChunk enc)
    (chunks4 (to_vec_f16_from_byte_slice em.data))
    (fun c hc => encodeChunk_some enc c (by rw [hchunks c hc]; omega))
  refine ⟨ws, ?_, ?_⟩
  · rw [faceWords, hem]
    simpa using hws
  · rw [hwl, chunks4_count _ (by omega), hf16]
    omega

theorem levelWords_some (enc : Nat → Nat → Nat → Nat) (image : Image) (m : Nat)
    (hm : m < image.texture_descriptor.mip_level_count)
    (h8 : image.texture_descriptor.block_copy_size = 8)
    (hdata : image.data.length =
      6 * ∑ j ∈ Finset.range image.texture_descriptor.mip_level_count,
        levelSize image.texture_descriptor.width image.texture_descriptor.height
          image.texture_descriptor.block_copy_size j) :
    ∃ ws, levelWords enc image m = some ws ∧
      ws.length = 6 * ((image.texture_descriptor.width / 2 ^ m)
        * (image.texture_descriptor.height / 2 ^ m)) := by
  set y := (image.texture_descriptor.width / 2 ^ m)
    * (image.texture_descriptor.height / 2 ^ m) with hy
  have hface : ∀ f ∈ List.range 6, ∃ ws, faceWords enc image m f = some ws :=
    fun f hf => (faceWords_some enc image m f hm (List.mem_range.mp hf) h8 hdata).imp
      fun _ hw => hw.1
  obtain ⟨fws, hfws, hlen6⟩ := mapOpt_some_of_forall _ _ hface
  refine ⟨fws.flatten, ?_, ?_⟩
  · rw [levelWords, hfws]
    rfl
  · have hall : ∀ x ∈ fws, x.length = y := by
      intro x hx
      obtain ⟨f, hfmem, hfx⟩ := forall2_mem_right (mapOpt_forall2 _ _ _ hfws) x hx
      obtain ⟨ws', hws', hwl'⟩ :=
        faceWords_some enc image m f hm (List.mem_range.mp hfmem) h8 hdata
      rw [hfx] at hws'
      cases hws'
      exact hwl'
    rw [flatten_length_const y fws hall, hlen6]
    simp

theorem buildLevel_some (enc : Nat → Nat → Nat → Nat) (compress : List Nat → List Nat)
    (image : Image) (m : Nat)
    (hm : m < image.texture_descriptor.mip_level_count)
    (h8 : image.texture_descriptor.block_copy_size = 8)
    (hdata : image.data.length =
      6 * ∑ j ∈ Finset.range image.texture_descriptor.mip_level_count,
        levelSize image.texture_descriptor.width image.texture_descriptor.height
          image.texture_descriptor.block_copy_size j) :
    ∃ l, buildLevel enc compress image m = some l ∧
      l.uncompressed_length = 4 * (6 * ((image.texture_descriptor.width / 2 ^ m)
        * (image.texture_descriptor.height / 2 ^ m))) := by
  obtain ⟨ws, hws, hwl⟩ := levelWords_some enc image m hm h8 hdata
  refine ⟨_, by rw [buildLevel, hws]; rfl, ?_⟩
  simp only [u32_to_bytes_length, hwl]

/-- C1: the guard in `extract_mip_level` is `mip_level_count < mip_level`,
so requesting mip level m = M passes the check instead of panicking: for a
4×4 source with M = 3 and 8-byte texels, m = 3 silently yields the empty
region (offset 168, length 0, dimensions 0×0); for M = 2, m = 2 silently
yields garbage — offset 160, length 8, which lies inside face 1's chain
(face 0 occupies bytes 0..159).  Only m ≥ M + 1 panics (m = 4 here). -/
theorem extract_mip_level_at_count_no_panic :
    extract_mip_level ⟨List.replicate 1008 0, ⟨4, 4, 3, 8, false⟩⟩ 3 0 =
      some ⟨[], 0, 0⟩ ∧
    extract_region ⟨4, 4, 3, 8, false⟩ 3 0 = some ((168, 0), 0, 0) ∧
    extract_region ⟨4, 4, 2, 8, false⟩ 2 0 = some ((160, 8), 1, 1) ∧
    extract_mip_level ⟨List.replicate 960 0, ⟨4, 4, 2, 8, false⟩⟩ 2 0 =
      some ⟨List.replicate 8 0, 1, 1⟩ ∧
    extract_mip_level ⟨List.replicate 1008 0, ⟨4, 4, 3, 8, false⟩⟩ 4 0 = none := by
  decide

/-- C7: for every source image reporting a compressed pixel format,
`write_ktx2` fails at once with the precondition panic — before any region
is extracted or any output produced (`none` is returned whatever the rest of
the image holds). -/
theorem write_ktx2_rejects_compressed (enc : Nat → Nat → Nat → Nat)
    (compress : List Nat → List Nat) (image : Image)
    (h : image.texture_descriptor.is_compressed = true) :
    write_ktx2 enc compress image = none := by
  rw [write_ktx2, if_pos h]

/-- Witness for `write_ktx2_rejects_compressed`: a compressed-format image
(with nonsense geometry and an empty buffer, which would break every later
stage) is rejected up front. -/
theorem write_ktx2_rejects_compressed_witness :
    write_ktx2 (fun _ _ _ => 0) id ⟨[], ⟨0, 0, 5, 0, true⟩⟩ = none :=
  write_ktx2_rejects_compressed (fun _ _ _ => 0) id ⟨[], ⟨0, 0, 5, 0, true⟩⟩ rfl

/-- C6: whenever `write_ktx2` succeeds, the container carries format
`E5B9G9R9_UFLOAT_PACK32`, type size 4, the base mip's width and height,
depth 0, layer count 0, face count 6, the Zstandard supercompression
identifier, exactly M levels — level i built from mip level i, so the
sequence is ordered largest mip first — and the serialized header's mip
level count field (bytes 40..43) equals M. -/
theorem write_ktx2_header_fields (enc : Nat → Nat → Nat → Nat)
    (compress : List Nat → List Nat) (image : Image) (k : KTX2Writer)
    (h : write_ktx2 enc compress image = some k) :
    k.header.format = some E5B9G9R9_UFLOAT_PACK32 ∧
    k.header.type_size = 4 ∧
    k.header.pixel_width = image.texture_descriptor.width ∧
    k.header.pixel_height = image.texture_descriptor.height ∧
    k.header.pixel_depth = 0 ∧
    k.header.layer_count = 0 ∧
    k.header.face_count = 6 ∧
    k.header.supercompression_scheme = some Zstandard ∧
    k.levels_descending.length = image.texture_descriptor.mip_level_count ∧
    List.Forall₂ (fun m l => buildLevel enc compress image m = some l)
      (List.range image.texture_descriptor.mip_level_count) k.levels_descending ∧
    ((serializeKTX2 k).drop 40).take 4 =
      u32le image.texture_descriptor.mip_level_count := by
  rw [write_ktx2] at h
  by_cases hc : image.texture_descriptor.is_compressed
  · rw [if_pos hc] at h
    simp at h
  rw [if_neg hc] at h
  cases hmips : mapOpt (buildLevel enc compress image)
      (List.range image.texture_descriptor.mip_level_count) with
  | none => rw [hmips] at h; simp at h
  | some mips =>
    rw [hmips] at h
    simp only [Option.bind_eq_bind, Option.some_bind, Option.pure_def,
      Option.some.injEq] at h
    subst h
    have hforall := mapOpt_forall2 _ _ _ hmips
    have hlen : mips.length = image.texture_descriptor.mip_level_count := by
      have := List.Forall₂.length_eq hforall
      simpa using this.symm
    refine ⟨rfl, rfl, rfl, rfl, rfl, rfl, rfl, rfl, hlen, hforall, ?_⟩
    rw [← hlen, serializeKTX2]
    simp only [u32le, u64le, List.cons_append, List.nil_append]
    rfl

/-- Witness for `write_ktx2_header_fields`: a 1×1, single-mip, 6-face image
of 48 zero bytes, the zero encoder and the identity compressor; the level
payload is the 24 zero bytes of the six packed words. -/
theorem write_ktx2_header_fields_witness :
    (KTX2Writer.mk
      ⟨some E5B9G9R9_UFLOAT_PACK32, 4, 1, 1, 0, 0, 6, some Zstandard⟩
      create_rgb9e5_dfd
      [⟨24, List.replicate 24 0⟩]).levels_descending.length =
      (Image.mk (List.replicate 48 0) ⟨1, 1, 1, 8, false⟩).texture_descriptor.mip_level_count :=
  (write_ktx2_header_fields (fun _ _ _ => 0) id
    (Image.mk (List.replicate 48 0) ⟨1, 1, 1, 8, false⟩)
    (KTX2Writer.mk
      ⟨some E5B9G9R9_UFLOAT_PACK32, 4, 1, 1, 0, 0, 6, some Zstandard⟩
      create_rgb9e5_dfd
      [⟨24, List.replicate 24 0⟩])
    (by decide)).2.2.2.2.2.2.2.2.1

/-- C9: conversion is deterministic — running the whole pipeline twice on
the same source image (same encoder and compressor functions) produces
byte-identical serialized output. -/
theorem write_ktx2_deterministic (enc : Nat → Nat → Nat → Nat)
    (compress : List Nat → List Nat) (image1 image2 : Image)
    (h : image1 = image2) :
    (write_ktx2 enc compress image1).map serializeKTX2 =
      (write_ktx2 enc compress image2).map serializeKTX2 := by
  rw [h]

/-- Witness for `write_ktx2_deterministic` on the 1×1 single-mip image. -/
theorem write_ktx2_deterministic_witness :
    (write_ktx2 (fun _ _ _ => 0) id
        (Image.mk (List.replicate 48 0) ⟨1, 1, 1, 8, false⟩)).map serializeKTX2 =
      (write_ktx2 (fun _ _ _ => 0) id
        (Image.mk (List.replicate 48 0) ⟨1, 1, 1, 8, false⟩)).map serializeKTX2 :=
  write_ktx2_deterministic (fun _ _ _ => 0) id
    (Image.mk (List.replicate 48 0) ⟨1, 1, 1, 8, false⟩)
    (Image.mk (List.replicate 48 0) ⟨1, 1, 1, 8, false⟩) rfl

/-- C10: for an 8-bytes-per-texel source whose buffer has the face-major,
mip-minor layout size, every (mip, face) region extracts successfully with
byte length width(m)·height(m)·8 — a multiple of 8 — the half-float
reinterpretation yields length/2 values, divisible by 4, every chunk of the
per-face encoding loop has exactly 4 elements (so the accesses v[0], v[1],
v[2] are in bounds and the face encoding succeeds), and the level
accumulates exactly 6 · width(m) · height(m) packed 32-bit words. -/
theorem writer_chunks_safe (enc : Nat → Nat → Nat → Nat) (image : Image)
    (m f : Nat)
    (hm : m < image.texture_descriptor.mip_level_count) (hf : f < 6)
    (h8 : image.texture_descriptor.block_copy_size = 8)
    (hdata : image.data.length =
      6 * ∑ j ∈ Finset.range image.texture_descriptor.mip_level_count,
        levelSize image.texture_descriptor.width image.texture_descriptor.height
          image.texture_descriptor.block_copy_size j) :
    ∃ em ws lws,
      extract_mip_level image m f = some em ∧
      em.data.length = (image.texture_descriptor.width / 2 ^ m)
        * (image.texture_descriptor.height / 2 ^ m) * 8 ∧
      em.data.length % 8 = 0 ∧
      (to_vec_f16_from_byte_slice em.data).length = em.data.length / 2 ∧
      (to_vec_f16_from_byte_slice em.data).length % 4 = 0 ∧
      (∀ c ∈ chunks4 (to_vec_f16_from_byte_slice em.data), c.length = 4) ∧
      faceWords enc image m f = some ws ∧
      levelWords enc image m = some lws ∧
      lws.length = 6 * ((image.texture_descriptor.width / 2 ^ m)
        * (image.texture_descriptor.height / 2 ^ m)) := by
  obtain ⟨em, hem, hlen, _, _⟩ := extract_mip_level_some image m f hm hf hdata
  obtain ⟨ws, hws, _⟩ := faceWords_some enc image m f hm hf h8 hdata
  obtain ⟨lws, hlws, hlwl⟩ := levelWords_some enc image m hm h8 hdata
  have hdl : em.data.length = (image.texture_descriptor.width / 2 ^ m)
      * (image.texture_descriptor.height / 2 ^ m) * 8 := by
    rw [hlen, levelSize, h8, mul_right_comm]
  refine ⟨em, ws, lws, hem, hdl, ?_, to_vec_f16_length em.data, ?_, ?_, hws, hlws, hlwl⟩
  · omega
  · rw [to_vec_f16_length, hdl]
    omega
  · exact chunks4_all_four _ (by rw [to_vec_f16_length, hdl]; omega)

/-- Witness for `writer_chunks_safe`: a 2×2 single-mip image of 192 zero
bytes, mip 0, face 0. -/
theorem writer_chunks_safe_witness :
    ∃ em ws lws,
      extract_mip_level (Image.mk (List.replicate 192 0) ⟨2, 2, 1, 8, false⟩) 0 0 =
        some em ∧
      em.data.length = (2 / 2 ^ 0) * (2 / 2 ^ 0) * 8 ∧
      em.data.length % 8 = 0 ∧
      (to_vec_f16_from_byte_slice em.data).length = em.data.length / 2 ∧
      (to_vec_f16_from_byte_slice em.data).length % 4 = 0 ∧
      (∀ c ∈ chunks4 (to_vec_f16_from_byte_slice em.data), c.length = 4) ∧
      faceWords (fun _ _ _ => 0)
        (Image.mk (List.replicate 192 0) ⟨2, 2, 1, 8, false⟩) 0 0 = some ws ∧
      levelWords (fun _ _ _ => 0)
        (Image.mk (List.replicate 192 0) ⟨2, 2, 1, 8, false⟩) 0 = some lws ∧
      lws.length = 6 * ((2 / 2 ^ 0) * (2 / 2 ^ 0)) :=
  writer_chunks_safe (fun _ _ _ => 0)
    (Image.mk (List.replicate 192 0) ⟨2, 2, 1, 8, false⟩) 0 0
    (by decide) (by decide) (by decide) (by decide)

/-- C8: the DFD builder's fixed header words: the word after the first header
word (bytes 8..11, after the 4-byte length prefix and the vendor/type word)
equals `(24 + 16×6) << 16 | 2`; the color-model word packs model = 1,
primaries = 1, transfer = 1, flags = 0 in ascending byte positions; the
texel-block-dimensions word is 0; bytesPlane0 = 4 and bytesPlane1..7 are 0. -/
theorem dfd_header_words :
    (create_rgb9e5_dfd.drop 8).take 4 = u32le ((24 + 16 * 6) <<< 16 ||| 2) ∧
    (create_rgb9e5_dfd.drop 12).take 4 =
      u32le (1 + 1 * 2 ^ 8 + 1 * 2 ^ 16 + 0 * 2 ^ 24) ∧
    (create_rgb9e5_dfd.drop 16).take 4 = u32le 0 ∧
    (create_rgb9e5_dfd.drop 20).take 8 = [4, 0, 0, 0, 0, 0, 0, 0] := by
  decide

/-- C5: the first 4 bytes of the DFD buffer, read little-endian, equal the
buffer's total byte length; the pre-patch buffer holds a zero placeholder
there, and the final buffer is the pre-patch buffer with its first word
overwritten by that length (same total length). -/
theorem dfd_length_prefix :
    readLE32 (create_rgb9e5_dfd.take 4) = create_rgb9e5_dfd.length ∧
    dfd_prepatch.take 4 = [0, 0, 0, 0] ∧
    create_rgb9e5_dfd = u32le dfd_prepatch.length ++ dfd_prepatch.drop 4 ∧
    create_rgb9e5_dfd.length = dfd_prepatch.length := by
  decide

/-- C2 counterexample: the claim says every exponent sample carries type code
3; but the second 16-byte sample (the R exponent, bytes 44..59) is not the
descriptor that bit geometry with type code 3 would produce — the code writes
channel type 0 (R) there. -/
theorem dfd_exponent_type_code_counterexample :
    (create_rgb9e5_dfd.drop 44).take 16 ≠ specSample 27 5 3 2 15 31 := by
  decide

/-- C2 amended: the DFD holds exactly six 16-byte samples (bytes 28..123), in
the order R mantissa, R exponent, G mantissa, G exponent, B mantissa,
B exponent; each first word packs bit_offset + (bit_length−1)·2^16 +
type·2^24 + qualifier·2^28; mantissas sit at bit offsets 0/9/18 with length
9, type codes 0/1/2, qualifier none, range 0..8448; every exponent sample
sits at bit offset 27 with length 5, the shared-exponent qualifier (bit 1 of
the qualifier nibble), range 15..31, and carries its own channel's type code
(0, 1, 2) rather than 3. -/
theorem dfd_six_samples :
    create_rgb9e5_dfd.drop 28 =
      specSample 0 9 0 0 0 8448 ++ specSample 27 5 0 2 15 31 ++
      specSample 9 9 1 0 0 8448 ++ specSample 27 5 1 2 15 31 ++
      specSample 18 9 2 0 0 8448 ++ specSample 27 5 2 2 15 31 ∧
    (create_rgb9e5_dfd.drop 28).length = 6 * 16 := by
  decide

/-- C3 counterexample: the R-exponent sample (bytes 44..59) and the
G-exponent sample (bytes 76..91) of the DFD are not byte-identical — they
differ in the channel-type byte. -/
theorem dfd_exponent_samples_not_identical :
    (create_rgb9e5_dfd.drop 44).take 16 ≠ (create_rgb9e5_dfd.drop 76).take 16 := by
  decide

/-- C3 amended: the three 16-byte exponent samples of the DFD agree on every
byte except byte 3 of their first word (the type/qualifier byte): bytes 0..2
and 4..15 coincide across all three, while byte 3 is 0x20, 0x21, 0x22
(qualifier nibble 2 with channel type 0, 1, 2 respectively). -/
theorem dfd_exponent_samples_agree_except_type :
    ((create_rgb9e5_dfd.drop 44).take 3 = (create_rgb9e5_dfd.drop 76).take 3 ∧
     (create_rgb9e5_dfd.drop 76).take 3 = (create_rgb9e5_dfd.drop 108).take 3) ∧
    ((create_rgb9e5_dfd.drop 48).take 12 = (create_rgb9e5_dfd.drop 80).take 12 ∧
     (create_rgb9e5_dfd.drop 80).take 12 = (create_rgb9e5_dfd.drop 112).take 12) ∧
    (create_rgb9e5_dfd.getD 47 0 = 32 ∧ create_rgb9e5_dfd.getD 79 0 = 33 ∧
     create_rgb9e5_dfd.getD 111 0 = 34) := by
  decide

end EnvMap

